import Mathlib

/-!
Verification of the CR-to-UX application synchronizer of velaux
(pkg/server/event/sync/cr2ux.go).

Shallow embedding conventions:
* The datastore is modelled as a total map from primary key (the record
  `Name`) to the stored application record; `ds.Get` succeeds exactly when
  the key is present and otherwise yields the store's record-not-exist
  error (`datastore.ErrRecordNotExist`), modelled as the string constant
  `errRecordNotExist`.
* Go `map[string]string` label/annotation lookup yields `""` on a missing
  key (also when the map is nil), modelled by association-list lookup with
  default `""`.
* The external collaborators called from cr2ux.go (`appFromUX`,
  `appFromCLI`, `shouldSyncMetaFromCLI`, `ConvertApp2DatastoreApp`, the
  `Store*` sub-entity helpers, `getSyncedRevision`, `SyncWorkflowRecord`,
  `DeleteApplication`) live in other files or packages and are opaque
  contracts from this file's point of view; they are modelled as oracle
  fields of an environment record `Env`, fixed for one event.  Each
  `Store*` pipeline helper is a state transformer on the datastore that
  either returns the updated store or an error.
* Execution of `syncAppCreatedByCLI` / `AddOrUpdate` is instrumented with
  a trace listing, in order, each pipeline step that was invoked and each
  `SyncWorkflowRecord` call with its arguments; this makes "step X was
  (not) executed" directly statable.
* Errors are modelled as `String` (Go `error` values compared by
  identity of the value returned).
-/

/-- A persisted application record (`model.Application`).  Only the field
read by cr2ux.go is modelled: the label map (`Labels map[string]string`).
The primary key (`Name`) is the key of the store map and is therefore not
duplicated inside the record. -/
structure Application where
  labels : List (String × String)
deriving DecidableEq

/-- The datastore, keyed by record name (primary key). -/
abbrev Store := String → Option Application

/-- The in-memory revision cache (`CR2UX.cache`), keyed by composed
application name; value = (last synced revision, target count). -/
abbrev Cache := String → Option (String × Nat)

/-- Modelled from the spec: `model.LabelSyncNamespace` (the model package is
not under src/) — the label key of the `sync-namespace` marker recording
which namespace currently owns a bare record name.  Its concrete value is
irrelevant to every claim; only its role as a fixed key matters. -/
def LabelSyncNamespace : String := "sync-namespace"

/-- The kubevela dependency constant `oam.AnnotationAppName`. -/
def AnnotationAppName : String := "app.oam.dev/appName"

/-- The kubevela dependency constant `oam.AnnotationPublishVersion`. -/
def AnnotationPublishVersion : String := "app.oam.dev/publishVersion"

/-- The datastore dependency's record-not-exist error
(`datastore.ErrRecordNotExist`), the error `ds.Get`/`ds.Delete` yield for
an absent key in the map model of the store. -/
def errRecordNotExist : String := "record does not exist"

/-- Go map read `labels[k]`: yields the value, or `""` when absent. -/
def labelGet (a : Application) (k : String) : String :=
  (a.labels.lookup k).getD ""

/-- The workflow status carried by the live resource
(`Status.Workflow`, `*common.WorkflowStatus`); only `AppRevision` is read. -/
structure WorkflowStatus where
  appRevision : String
deriving DecidableEq

/-- The live Application custom resource (`*v1beta1.Application`): the
fields cr2ux.go reads.  `nspace` models the Go field `Namespace`
(`namespace` is a Lean keyword). -/
structure AppCR where
  name : String
  nspace : String
  annotations : List (String × String)
  statusWorkflow : Option WorkflowStatus
deriving DecidableEq

/-- Go annotation read `app.Annotations[k]` (`""` on nil map / absent key). -/
def annotGet (app : AppCR) (k : String) : String :=
  (app.annotations.lookup k).getD ""

/-- The kubevela dependency accessor `oam.GetPublishVersion`: reads the
publish-version annotation (`""` when absent). -/
def getPublishVersion (app : AppCR) : String :=
  annotGet app AnnotationPublishVersion

/-- `formatAppComposedName` (cr2ux.go line 71): `name + "-" + namespace`. -/
def formatAppComposedName (name nspace : String) : String :=
  name ++ "-" ++ nspace

/-- `CR2UX.getApp` (cr2ux.go lines 37-56).  Returns (record if found,
canonical key, error).  Probe the composed key first; if absent, probe the
bare name and compare its sync-namespace label against the requesting
namespace; otherwise report not-found with the bare name. -/
def getApp (ds : Store) (name nspace : String) :
    Option Application × String × Option String :=
  match ds (formatAppComposedName name nspace) with
  | some alreadyCreated => (some alreadyCreated, formatAppComposedName name nspace, none)
  | none =>
    match ds name with
    | some existApp =>
      if labelGet existApp LabelSyncNamespace ≠ nspace then
        (none, formatAppComposedName name nspace, some errRecordNotExist)
      else
        (some existApp, name, none)
    | none => (none, name, some errRecordNotExist)

/-- `CR2UX.getAppMetaName` (cr2ux.go lines 76-79): the canonical key
component of `getApp`. -/
def getAppMetaName (ds : Store) (name nspace : String) : String :=
  (getApp ds name nspace).2.1

/-- Claim C8: for every (name, namespace) pair for which the store contains
a record under neither the composed key name-namespace nor the bare name,
getApp returns no record (not-found) together with the bare name as the
canonical key. -/
theorem getApp_first_claim (ds : Store) (name nspace : String)
    (hcomp : ds (formatAppComposedName name nspace) = none)
    (hbare : ds name = none) :
    (getApp ds name nspace).1 = none ∧ (getApp ds name nspace).2.1 = name := by
  simp [getApp, hcomp, hbare]

/-- The empty datastore. -/
def emptyStore : Store := fun _ => none

/-- Witness for C8 at a concrete input: the empty store. -/
theorem getApp_first_claim_witness :
    (getApp emptyStore "web" "prod").1 = none ∧
    (getApp emptyStore "web" "prod").2.1 = "web" :=
  getApp_first_claim emptyStore "web" "prod" rfl rfl

/-- A record whose bare name is owned by namespace ns-a. -/
def recOwnedByNsA : Application := { labels := [(LabelSyncNamespace, "ns-a")] }

/-- A record stored under the composed key demo-ns-b. -/
def recComposed : Application := { labels := [] }

/-- A store holding both the bare record demo (owned by ns-a) and a record
under the composed key demo-ns-b. -/
def storeBoth : Store := fun k =>
  if k = "demo" then some recOwnedByNsA
  else if k = "demo-ns-b" then some recComposed
  else none

/-- Counterexample to claim C1 as stated: the store contains a record under
the bare name "demo" whose sync-namespace label is "ns-a", and
"ns-b" ≠ "ns-a", yet getApp resolving ("demo", "ns-b") returns a record
(the one stored under the composed key "demo-ns-b"), not not-found: the
claim omits the precondition that no composed-key record exists. -/
theorem getApp_bare_claimed_cex :
    storeBoth "demo" = some recOwnedByNsA ∧
    labelGet recOwnedByNsA LabelSyncNamespace = "ns-a" ∧
    ("ns-b" : String) ≠ "ns-a" ∧
    ¬ ((getApp storeBoth "demo" "ns-b").1 = none) := by
  refine ⟨rfl, rfl, by decide, ?_⟩
  decide

/-- Claim C1 (amended): if additionally the store contains no record under
the composed key X-ns-b, then resolving (X, ns-b) via getApp for a bare
record owned by ns-a ≠ ns-b returns no record together with the composed
canonical key X-ns-b. -/
theorem getApp_bare_claimed_other_ns (ds : Store) (X nsa nsb : String)
    (r : Application)
    (hcomp : ds (formatAppComposedName X nsb) = none)
    (hbare : ds X = some r)
    (hlabel : labelGet r LabelSyncNamespace = nsa)
    (hne : nsb ≠ nsa) :
    (getApp ds X nsb).1 = none ∧
    (getApp ds X nsb).2.1 = formatAppComposedName X nsb := by
  have hne2 : labelGet r LabelSyncNamespace ≠ nsb := by
    rw [hlabel]; exact fun h => hne h.symm
  simp [getApp, hcomp, hbare, hne2]

/-- A store holding only the bare record demo, owned by ns-a. -/
def storeBareOnly : Store := fun k =>
  if k = "demo" then some recOwnedByNsA else none

/-- Witness for the amended claim C1 at a concrete input. -/
theorem getApp_bare_claimed_other_ns_witness :
    (getApp storeBareOnly "demo" "ns-b").1 = none ∧
    (getApp storeBareOnly "demo" "ns-b").2.1 =
      formatAppComposedName "demo" "ns-b" :=
  getApp_bare_claimed_other_ns storeBareOnly "demo" "ns-a" "ns-b"
    recOwnedByNsA (by decide) (by decide) rfl (by decide)

/-- The ordered sub-entity persistence steps of `syncAppCreatedByCLI`
(cr2ux.go lines 105-151), in source order. -/
inductive Step where
  | storeProject
  | storeTargets
  | storeEnv
  | storeEnvBinding
  | storeComponents
  | storePolicy
  | storeWorkflow
  | storeApplicationRevision
  | storeWorkflowRecord
  | storeAppMeta
deriving DecidableEq

/-- Trace events: one per pipeline-step invocation, plus one per
`SyncWorkflowRecord` call recording its (appKey, recordName) arguments. -/
inductive Event where
  | step (s : Step)
  | syncWorkflowRecord (appKey recordName : String)
deriving DecidableEq

/-- The intermediate conversion result (`DataStoreApp`) as read by
cr2ux.go: presence of `Project`, `Targets` (only the length is read),
`Revision` (identified opaquely by a string, consumed by the
`getSyncedRevision` oracle) and `AppMeta.Name` (forwarded to the opaque
component/policy step helpers).  The sub-entity payloads themselves are
consumed only by the opaque `Store*` helpers and live behind the per-step
oracles of `Env`. -/
structure DSApp where
  appMetaName : String
  project : Option String
  targets : List String
  revision : String
deriving DecidableEq

/-- The opaque collaborators of `CR2UX` for one event, fixed per run:
classifiers, the conversion outcome, the outcome of each `Store*` pipeline
helper (a datastore transformer), `getSyncedRevision`, the
`SyncWorkflowRecord` outcome as a function of its arguments, and the
optional application service used by `DeleteApp`. -/
structure Env where
  appFromUX : Bool
  appFromCLI : Bool
  shouldSyncMetaFromCLI : Bool → Bool
  convertApp2DatastoreApp : Except String DSApp
  runStep : Step → Store → Except String Store
  getSyncedRevision : String → String
  syncWorkflowRecord : String → String → Option String
  hasApplicationService : Bool
  deleteApplication : Option Application → Option String

/-- Result of one `AddOrUpdate` / `syncAppCreatedBy*` run: returned error,
final datastore, final revision cache, and the instrumentation trace. -/
structure SyncResult where
  err : Option String
  store : Store
  cache : Cache
  trace : List Event

/-- Run a list of pipeline steps in order, stopping at the first error
(each `if err = Store...; err != nil { return err }` block of cr2ux.go);
returns (error if any, final datastore, one trace event per step invoked). -/
def runSteps (env : Env) : List Step → Store → Option String × Store × List Event
  | [], st => (none, st, [])
  | s :: rest, st =>
    match env.runStep s st with
    | Except.error e => (some e, st, [Event.step s])
    | Except.ok st2 =>
      let r := runSteps env rest st2
      (r.1, r.2.1, Event.step s :: r.2.2)

/-- The steps `syncAppCreatedByCLI` runs, in source order: `StoreProject`
only when `dsApp.Project != nil` (cr2ux.go line 105), then the eight
unconditional steps of lines 112-151. -/
def pipelineSteps (dsApp : DSApp) : List Step :=
  (if dsApp.project.isSome then [Step.storeProject] else []) ++
  [Step.storeTargets, Step.storeEnv, Step.storeEnvBinding,
   Step.storeComponents, Step.storePolicy, Step.storeWorkflow,
   Step.storeApplicationRevision, Step.storeWorkflowRecord,
   Step.storeAppMeta]

/-- Modelled from the spec: `CR2UX.syncCache` (defined in the sync
package's utility file, which is not under src/) stores the pair
(revision, target count) in the revision cache under the given key
(spec §4.5: put(key, revision, targetCount), last-write-wins). -/
def syncCache (cache : Cache) (key revision : String) (targetNum : Nat) : Cache :=
  fun k => if k = key then some (revision, targetNum) else cache k

/-- Replace the first occurrence of a character in a character list. -/
def replaceFirstChar : List Char → Char → Char → List Char
  | [], _, _ => []
  | c :: cs, oldc, newc =>
    if c = oldc then newc :: cs else c :: replaceFirstChar cs oldc newc

/-- Models Go `strings.Replace(s, old, new, 1)` for the single-character
pattern used in cr2ux.go line 163 (`":"` replaced by `"-"` once). -/
def stringsReplaceFirst (s : String) (oldc newc : Char) : String :=
  ⟨replaceFirstChar s.data oldc newc⟩

/-- The workflow record name computed by cr2ux.go lines 160-167: the
publish-version annotation when present, else the status revision marker
with its first `:` replaced by `-` when the status carries one, else the
empty string (line 165 only logs a warning and leaves `recordName` empty). -/
def computedRecordName (app : AppCR) : String :=
  if getPublishVersion app = "" then
    match app.statusWorkflow with
    | some w => stringsReplaceFirst w.appRevision ':' '-'
    | none => ""
  else getPublishVersion app

/-- The tail of `syncAppCreatedByCLI` (cr2ux.go lines 160-168), reached
whether or not the metadata pipeline ran: compute the workflow record name
(`computedRecordName`), then always call `SyncWorkflowRecord` with the
canonical app name and return its error. -/
def finishWorkflowRecord (env : Env) (app : AppCR) (st : Store)
    (cache : Cache) (tr : List Event) : SyncResult :=
  let recordName := computedRecordName app
  let appKey := getAppMetaName st app.name app.nspace
  { err := env.syncWorkflowRecord appKey recordName
    store := st
    cache := cache
    trace := tr ++ [Event.syncWorkflowRecord appKey recordName] }

/-- `CR2UX.syncAppCreatedByCLI` (cr2ux.go lines 97-169): when metadata
sync is due, convert the live resource and run the ordered persistence
pipeline, returning the first error unmodified; on pipeline success update
the revision cache under the composed (name, namespace) key; finally (also
when no metadata sync was due) perform the workflow-record
synchronization. -/
def syncAppCreatedByCLI (env : Env) (app : AppCR) (st : Store)
    (cache : Cache) : SyncResult :=
  if env.shouldSyncMetaFromCLI false then
    match env.convertApp2DatastoreApp with
    | Except.error e => { err := some e, store := st, cache := cache, trace := [] }
    | Except.ok dsApp =>
      let r := runSteps env (pipelineSteps dsApp) st
      match r.1 with
      | some e => { err := some e, store := r.2.1, cache := cache, trace := r.2.2 }
      | none =>
        let key := formatAppComposedName app.name app.nspace
        let syncedVersion := env.getSyncedRevision dsApp.revision
        let cache2 := syncCache cache key syncedVersion dsApp.targets.length
        finishWorkflowRecord env app r.2.1 cache2 r.2.2
  else
    finishWorkflowRecord env app st cache []

/-- `CR2UX.syncAppCreatedByUX` (cr2ux.go lines 81-95): the application-name
annotation must be non-empty, else error; then forward only the
workflow-record synchronization using the publish-version annotation as
record name (empty when absent, with a warning). -/
def syncAppCreatedByUX (env : Env) (app : AppCR) (st : Store)
    (cache : Cache) : SyncResult :=
  let appPrimaryKey := annotGet app AnnotationAppName
  if appPrimaryKey = "" then
    { err := some ("appName is empty in application " ++ app.name)
      store := st, cache := cache, trace := [] }
  else
    let recordName := annotGet app AnnotationPublishVersion
    { err := env.syncWorkflowRecord appPrimaryKey recordName
      store := st
      cache := cache
      trace := [Event.syncWorkflowRecord appPrimaryKey recordName] }

/-- `CR2UX.AddOrUpdate` (cr2ux.go lines 172-182): dispatch on origin;
unrecognized resources are skipped with success. -/
def AddOrUpdate (env : Env) (app : AppCR) (st : Store) (cache : Cache) :
    SyncResult :=
  if env.appFromUX then
    syncAppCreatedByUX env app st cache
  else if env.appFromCLI then
    syncAppCreatedByCLI env app st cache
  else
    { err := none, store := st, cache := cache, trace := [] }

/-- `ds.Delete` on the map model of the datastore: remove the key when
present, else report the record-not-exist error. -/
def dsDelete (st : Store) (k : String) : Option String × Store :=
  match st k with
  | some _ => (none, fun k2 => if k2 = k then none else st k2)
  | none => (some errRecordNotExist, st)

/-- `CR2UX.DeleteApp` (cr2ux.go lines 185-198): act only on CLI-origin
resources (or those whose delete-time metadata-sync predicate says so);
resolve the canonical record, surface resolution errors as-is; delegate to
the application service when configured, else delete the record by its
canonical key. -/
def DeleteApp (env : Env) (app : AppCR) (st : Store) : Option String × Store :=
  if !env.appFromCLI && !env.shouldSyncMetaFromCLI true then
    (none, st)
  else
    let r := getApp st app.name app.nspace
    match r.2.2 with
    | some e => (some e, st)
    | none =>
      if env.hasApplicationService then
        (env.deleteApplication r.1, st)
      else
        dsDelete st r.2.1

/-- Unfolding equation for `runSteps` on a non-empty step list. -/
theorem runSteps_cons (env : Env) (s : Step) (rest : List Step) (st : Store) :
    runSteps env (s :: rest) st =
      match env.runStep s st with
      | Except.error e => (some e, st, [Event.step s])
      | Except.ok st2 =>
        ((runSteps env rest st2).1, (runSteps env rest st2).2.1,
          Event.step s :: (runSteps env rest st2).2.2) := rfl

/-- Every event in a `runSteps` trace is a step event for a step of the
list that was run. -/
theorem runSteps_trace_is_steps (env : Env) :
    ∀ (l : List Step) (st : Store) (ev : Event),
      ev ∈ (runSteps env l st).2.2 → ∃ s, ev = Event.step s ∧ s ∈ l := by
  intro l
  induction l with
  | nil =>
    intro st ev h
    simp [runSteps] at h
  | cons s rest ih =>
    intro st ev h
    rw [runSteps_cons] at h
    cases hrun : env.runStep s st with
    | error e =>
      rw [hrun] at h
      simp only [List.mem_singleton] at h
      exact ⟨s, h, List.mem_cons_self s rest⟩
    | ok st2 =>
      rw [hrun] at h
      simp only [List.mem_cons] at h
      rcases h with h | h
      · exact ⟨s, h, List.mem_cons_self s rest⟩
      · obtain ⟨s2, rfl, hs2⟩ := ih st2 ev h
        exact ⟨s2, rfl, List.mem_cons_of_mem s hs2⟩

/-- The head step of a non-empty step list is always invoked (it appears in
the trace whether it succeeds or fails). -/
theorem runSteps_head_mem (env : Env) (s : Step) (rest : List Step) (st : Store) :
    Event.step s ∈ (runSteps env (s :: rest) st).2.2 := by
  rw [runSteps_cons]
  cases hrun : env.runStep s st <;> simp

/-- Fail-fast behaviour of `runSteps`: when every step of a prefix succeeds
(from any store) and the next step always fails with error `e`, the run
returns `e` and the trace is exactly the prefix followed by the failing
step; no later step is invoked. -/
theorem runSteps_error_after_prefix (env : Env) (bad : Step) (e : String)
    (l2 : List Step)
    (hbad : ∀ st : Store, env.runStep bad st = Except.error e) :
    ∀ (l : List Step),
      (∀ s ∈ l, ∀ st0 : Store, ∃ st1, env.runStep s st0 = Except.ok st1) →
      ∀ st : Store,
        (runSteps env (l ++ bad :: l2) st).1 = some e ∧
        (runSteps env (l ++ bad :: l2) st).2.2 =
          l.map Event.step ++ [Event.step bad] := by
  intro l
  induction l with
  | nil =>
    intro _ st
    rw [List.nil_append, runSteps_cons, hbad st]
    simp
  | cons a l ih =>
    intro hok st
    obtain ⟨st2, ha⟩ := hok a (List.mem_cons_self a l) st
    have ihr := ih (fun s hs st0 => hok s (List.mem_cons_of_mem a hs) st0) st2
    rw [List.cons_append, runSteps_cons, ha]
    simp [ihr.1, ihr.2]

/-- When metadata sync is due, conversion succeeds and the pipeline fails,
`syncAppCreatedByCLI` returns the pipeline error with the cache untouched
and the pipeline trace. -/
theorem syncCLI_pipeline_error (env : Env) (app : AppCR) (st : Store)
    (cache : Cache) (dsApp : DSApp) (e : String)
    (hsync : env.shouldSyncMetaFromCLI false = true)
    (hconv : env.convertApp2DatastoreApp = Except.ok dsApp)
    (h1 : (runSteps env (pipelineSteps dsApp) st).1 = some e) :
    syncAppCreatedByCLI env app st cache =
      { err := some e
        store := (runSteps env (pipelineSteps dsApp) st).2.1
        cache := cache
        trace := (runSteps env (pipelineSteps dsApp) st).2.2 } := by
  unfold syncAppCreatedByCLI
  rw [hsync, hconv]
  simp only [if_true]
  rw [h1]

/-- When metadata sync is due, conversion succeeds and the pipeline
succeeds, `syncAppCreatedByCLI` updates the cache and proceeds to the
workflow-record synchronization on the post-pipeline store. -/
theorem syncCLI_pipeline_ok (env : Env) (app : AppCR) (st : Store)
    (cache : Cache) (dsApp : DSApp)
    (hsync : env.shouldSyncMetaFromCLI false = true)
    (hconv : env.convertApp2DatastoreApp = Except.ok dsApp)
    (h1 : (runSteps env (pipelineSteps dsApp) st).1 = none) :
    syncAppCreatedByCLI env app st cache =
      finishWorkflowRecord env app (runSteps env (pipelineSteps dsApp) st).2.1
        (syncCache cache (formatAppComposedName app.name app.nspace)
          (env.getSyncedRevision dsApp.revision) dsApp.targets.length)
        (runSteps env (pipelineSteps dsApp) st).2.2 := by
  unfold syncAppCreatedByCLI
  rw [hsync, hconv]
  simp only [if_true]
  rw [h1]

/-- When no metadata sync is due, `syncAppCreatedByCLI` only performs the
workflow-record synchronization, on the unchanged store and cache. -/
theorem syncCLI_no_meta_sync (env : Env) (app : AppCR) (st : Store)
    (cache : Cache)
    (hsync : env.shouldSyncMetaFromCLI false = false) :
    syncAppCreatedByCLI env app st cache =
      finishWorkflowRecord env app st cache [] := by
  unfold syncAppCreatedByCLI
  rw [hsync]
  simp

/-- Any `SyncWorkflowRecord` event in a `finishWorkflowRecord` trace whose
prefix holds only step events carries the canonical app name and the
computed record name as arguments. -/
theorem finish_trace_sync_args (env : Env) (app : AppCR) (st : Store)
    (cache : Cache) (tr : List Event) (k rn : String)
    (htr : ∀ ev ∈ tr, ∃ s, ev = Event.step s)
    (h : Event.syncWorkflowRecord k rn ∈
      (finishWorkflowRecord env app st cache tr).trace) :
    k = getAppMetaName st app.name app.nspace ∧ rn = computedRecordName app := by
  unfold finishWorkflowRecord at h
  simp only [List.mem_append, List.mem_singleton] at h
  rcases h with h | h
  · obtain ⟨s, hs⟩ := htr _ h
    exact Event.noConfusion hs
  · injection h with h1 h2
    exact ⟨h1, h2⟩

/-- In every run of `syncAppCreatedByCLI`, the record name passed to any
`SyncWorkflowRecord` call is `computedRecordName`. -/
theorem syncCLI_sync_event_args (env : Env) (app : AppCR) (st : Store)
    (cache : Cache) (k rn : String)
    (h : Event.syncWorkflowRecord k rn ∈
      (syncAppCreatedByCLI env app st cache).trace) :
    rn = computedRecordName app := by
  cases hb : env.shouldSyncMetaFromCLI false with
  | false =>
    rw [syncCLI_no_meta_sync env app st cache hb] at h
    exact (finish_trace_sync_args env app st cache [] k rn
      (by intro ev hev; simp at hev) h).2
  | true =>
    cases hconv : env.convertApp2DatastoreApp with
    | error e =>
      unfold syncAppCreatedByCLI at h
      rw [hb, hconv] at h
      simp at h
    | ok dsApp =>
      cases h1 : (runSteps env (pipelineSteps dsApp) st).1 with
      | some e =>
        rw [syncCLI_pipeline_error env app st cache dsApp e hb hconv h1] at h
        obtain ⟨s, hs, _⟩ :=
          runSteps_trace_is_steps env (pipelineSteps dsApp) st _ h
        exact Event.noConfusion hs
      | none =>
        rw [syncCLI_pipeline_ok env app st cache dsApp hb hconv h1] at h
        refine (finish_trace_sync_args env app _ _ _ k rn ?_ h).2
        intro ev hev
        obtain ⟨s, hs, _⟩ :=
          runSteps_trace_is_steps env (pipelineSteps dsApp) st ev hev
        exact ⟨s, hs⟩

/-- Step events of a `syncAppCreatedByCLI` trace are exactly the step
events of its pipeline run. -/
theorem syncCLI_trace_step_mem (env : Env) (app : AppCR) (st : Store)
    (cache : Cache) (dsApp : DSApp) (s : Step)
    (hsync : env.shouldSyncMetaFromCLI false = true)
    (hconv : env.convertApp2DatastoreApp = Except.ok dsApp) :
    Event.step s ∈ (syncAppCreatedByCLI env app st cache).trace ↔
      Event.step s ∈ (runSteps env (pipelineSteps dsApp) st).2.2 := by
  cases h1 : (runSteps env (pipelineSteps dsApp) st).1 with
  | some e =>
    rw [syncCLI_pipeline_error env app st cache dsApp e hsync hconv h1]
  | none =>
    rw [syncCLI_pipeline_ok env app st cache dsApp hsync hconv h1]
    unfold finishWorkflowRecord
    simp

/-- Claim C2: for every CLI-origin sync in which the components-store step
returns an error e (metadata sync due, conversion succeeded, every earlier
step succeeds), the subsequent pipeline steps (policies, workflow
definition, application revision, workflow record, application metadata)
are not executed, the revision cache is not updated, and
syncAppCreatedByCLI returns exactly e unmodified. -/
theorem syncCLI_components_fail_fast (env : Env) (app : AppCR) (st : Store)
    (cache : Cache) (dsApp : DSApp) (e : String)
    (hsync : env.shouldSyncMetaFromCLI false = true)
    (hconv : env.convertApp2DatastoreApp = Except.ok dsApp)
    (hprev : ∀ s ∈ [Step.storeProject, Step.storeTargets, Step.storeEnv,
      Step.storeEnvBinding], ∀ st0 : Store, ∃ st1,
      env.runStep s st0 = Except.ok st1)
    (hcomp : ∀ st0 : Store,
      env.runStep Step.storeComponents st0 = Except.error e) :
    (syncAppCreatedByCLI env app st cache).err = some e ∧
    (syncAppCreatedByCLI env app st cache).cache = cache ∧
    Event.step Step.storePolicy ∉ (syncAppCreatedByCLI env app st cache).trace ∧
    Event.step Step.storeWorkflow ∉ (syncAppCreatedByCLI env app st cache).trace ∧
    Event.step Step.storeApplicationRevision ∉
      (syncAppCreatedByCLI env app st cache).trace ∧
    Event.step Step.storeWorkflowRecord ∉
      (syncAppCreatedByCLI env app st cache).trace ∧
    Event.step Step.storeAppMeta ∉ (syncAppCreatedByCLI env app st cache).trace := by
  have hpm : ∀ s ∈ ((if dsApp.project.isSome then [Step.storeProject] else []) ++
      [Step.storeTargets, Step.storeEnv, Step.storeEnvBinding]),
      ∀ st0 : Store, ∃ st1, env.runStep s st0 = Except.ok st1 := by
    intro s hs
    apply hprev
    rcases List.mem_append.mp hs with h | h
    · cases hproj : dsApp.project.isSome
      · rw [hproj] at h; simp at h
      · rw [hproj] at h; simp at h; subst h; simp
    · simp at h
      rcases h with rfl | rfl | rfl <;> simp
  have hre := runSteps_error_after_prefix env Step.storeComponents e
    [Step.storePolicy, Step.storeWorkflow, Step.storeApplicationRevision,
     Step.storeWorkflowRecord, Step.storeAppMeta] hcomp
    ((if dsApp.project.isSome then [Step.storeProject] else []) ++
     [Step.storeTargets, Step.storeEnv, Step.storeEnvBinding]) hpm st
  have hsplit : ((if dsApp.project.isSome then [Step.storeProject] else []) ++
      [Step.storeTargets, Step.storeEnv, Step.storeEnvBinding]) ++
      Step.storeComponents ::
      [Step.storePolicy, Step.storeWorkflow, Step.storeApplicationRevision,
       Step.storeWorkflowRecord, Step.storeAppMeta] = pipelineSteps dsApp := by
    cases hproj : dsApp.project.isSome <;> simp [pipelineSteps, hproj]
  rw [hsplit] at hre
  have hres := syncCLI_pipeline_error env app st cache dsApp e hsync hconv hre.1
  rw [hres]
  refine ⟨rfl, rfl, ?_, ?_, ?_, ?_, ?_⟩ <;>
  · show Event.step _ ∉ (runSteps env (pipelineSteps dsApp) st).2.2
    rw [hre.2]
    cases dsApp.project.isSome <;> decide

/-- The intermediate conversion result used by the concrete test runs:
no project, two targets, revision identifier web-v1. -/
def dsAppWitness : DSApp :=
  { appMetaName := "web", project := none, targets := ["t1", "t2"],
    revision := "web-v1" }

/-- A CLI-origin environment whose pipeline steps all succeed. -/
def cliEnvAllOk : Env :=
  { appFromUX := false
    appFromCLI := true
    shouldSyncMetaFromCLI := fun _ => true
    convertApp2DatastoreApp := Except.ok dsAppWitness
    runStep := fun _ st0 => Except.ok st0
    getSyncedRevision := fun r => r
    syncWorkflowRecord := fun _ _ => none
    hasApplicationService := false
    deleteApplication := fun _ => none }

/-- `cliEnvAllOk` with a failing components step. -/
def cliEnvCompFail : Env :=
  { cliEnvAllOk with
    runStep := fun s st0 =>
      if s = Step.storeComponents then Except.error "components store failed"
      else Except.ok st0 }

/-- The empty revision cache. -/
def emptyCache : Cache := fun _ => none

/-- A CLI-origin live resource with a publish-version annotation. -/
def appWeb : AppCR :=
  { name := "web", nspace := "prod",
    annotations := [(AnnotationPublishVersion, "v2")], statusWorkflow := none }

/-- Witness for C2 at a concrete input: the components step fails, the
error is returned, the cache is untouched and no later step ran. -/
theorem syncCLI_components_fail_fast_witness :
    (syncAppCreatedByCLI cliEnvCompFail appWeb emptyStore emptyCache).err =
      some "components store failed" ∧
    (syncAppCreatedByCLI cliEnvCompFail appWeb emptyStore emptyCache).cache =
      emptyCache ∧
    Event.step Step.storePolicy ∉
      (syncAppCreatedByCLI cliEnvCompFail appWeb emptyStore emptyCache).trace ∧
    Event.step Step.storeWorkflow ∉
      (syncAppCreatedByCLI cliEnvCompFail appWeb emptyStore emptyCache).trace ∧
    Event.step Step.storeApplicationRevision ∉
      (syncAppCreatedByCLI cliEnvCompFail appWeb emptyStore emptyCache).trace ∧
    Event.step Step.storeWorkflowRecord ∉
      (syncAppCreatedByCLI cliEnvCompFail appWeb emptyStore emptyCache).trace ∧
    Event.step Step.storeAppMeta ∉
      (syncAppCreatedByCLI cliEnvCompFail appWeb emptyStore emptyCache).trace :=
  syncCLI_components_fail_fast cliEnvCompFail appWeb emptyStore emptyCache
    dsAppWitness "components store failed" rfl rfl
    (by intro s hs st0; fin_cases hs <;> exact ⟨st0, rfl⟩)
    (fun st0 => rfl)

/-- Claim C4: for every CLI-origin sync whose full persistence pipeline
completes without error, the revision cache afterwards maps the composed
key name-namespace of the live resource to exactly the pair (synced
revision of the persisted revision snapshot, number of targets in the
conversion result). -/
theorem syncCLI_cache_fresh (env : Env) (app : AppCR) (st : Store)
    (cache : Cache) (dsApp : DSApp)
    (hsync : env.shouldSyncMetaFromCLI false = true)
    (hconv : env.convertApp2DatastoreApp = Except.ok dsApp)
    (hok : (runSteps env (pipelineSteps dsApp) st).1 = none) :
    (syncAppCreatedByCLI env app st cache).cache
        (formatAppComposedName app.name app.nspace) =
      some (env.getSyncedRevision dsApp.revision, dsApp.targets.length) := by
  rw [syncCLI_pipeline_ok env app st cache dsApp hsync hconv hok]
  unfold finishWorkflowRecord syncCache
  simp

/-- Witness for C4 at a concrete input: after an all-success run, the cache
entry for the composed key holds the synced revision and target count. -/
theorem syncCLI_cache_fresh_witness :
    (syncAppCreatedByCLI cliEnvAllOk appWeb emptyStore emptyCache).cache
        (formatAppComposedName "web" "prod") =
      some ("web-v1", 2) :=
  syncCLI_cache_fresh cliEnvAllOk appWeb emptyStore emptyCache dsAppWitness
    rfl rfl (by decide)

/-- Claim C10: for every CLI-origin sync whose conversion result carries no
project, the project-store step is skipped entirely and the pipeline
proceeds to the targets step; the project step runs only when a project is
present. -/
theorem syncCLI_project_step_optional (env : Env) (app : AppCR) (st : Store)
    (cache : Cache) (dsApp : DSApp)
    (hsync : env.shouldSyncMetaFromCLI false = true)
    (hconv : env.convertApp2DatastoreApp = Except.ok dsApp) :
    (dsApp.project = none →
      Event.step Step.storeProject ∉
        (syncAppCreatedByCLI env app st cache).trace ∧
      Event.step Step.storeTargets ∈
        (syncAppCreatedByCLI env app st cache).trace) ∧
    (Event.step Step.storeProject ∈
        (syncAppCreatedByCLI env app st cache).trace →
      dsApp.project.isSome = true) := by
  constructor
  · intro hnone
    have hps : pipelineSteps dsApp =
        [Step.storeTargets, Step.storeEnv, Step.storeEnvBinding,
         Step.storeComponents, Step.storePolicy, Step.storeWorkflow,
         Step.storeApplicationRevision, Step.storeWorkflowRecord,
         Step.storeAppMeta] := by
      simp [pipelineSteps, hnone]
    constructor
    · intro hmem
      rw [syncCLI_trace_step_mem env app st cache dsApp _ hsync hconv] at hmem
      obtain ⟨s2, hs2, hmem2⟩ :=
        runSteps_trace_is_steps env (pipelineSteps dsApp) st _ hmem
      injection hs2 with h
      subst h
      rw [hps] at hmem2
      simp at hmem2
    · rw [syncCLI_trace_step_mem env app st cache dsApp _ hsync hconv, hps]
      exact runSteps_head_mem env Step.storeTargets _ st
  · intro hmem
    rw [syncCLI_trace_step_mem env app st cache dsApp _ hsync hconv] at hmem
    obtain ⟨s2, hs2, hmem2⟩ :=
      runSteps_trace_is_steps env (pipelineSteps dsApp) st _ hmem
    injection hs2 with h
    subst h
    cases hproj : dsApp.project.isSome
    · unfold pipelineSteps at hmem2
      rw [hproj] at hmem2
      simp at hmem2
    · rfl

/-- Witness for C10 at a concrete input: with a project-less conversion
result the project step does not appear in the trace and the targets step
does. -/
theorem syncCLI_project_step_optional_witness :
    Event.step Step.storeProject ∉
      (syncAppCreatedByCLI cliEnvAllOk appWeb emptyStore emptyCache).trace ∧
    Event.step Step.storeTargets ∈
      (syncAppCreatedByCLI cliEnvAllOk appWeb emptyStore emptyCache).trace :=
  (syncCLI_project_step_optional cliEnvAllOk appWeb emptyStore emptyCache
    dsAppWitness rfl rfl).1 rfl

/-- A CLI-origin environment for which no metadata sync is due. -/
def cliEnvNoSync : Env :=
  { cliEnvAllOk with shouldSyncMetaFromCLI := fun _ => false }

/-- A CLI-origin live resource with neither a publish-version annotation
nor a workflow revision marker in its status. -/
def appNoVersion : AppCR :=
  { name := "demo", nspace := "prod", annotations := [], statusWorkflow := none }

/-- Counterexample to claim C3 as stated: for a CLI-origin resource with no
publish-version annotation and no status workflow revision marker,
syncAppCreatedByCLI still invokes SyncWorkflowRecord (cr2ux.go line 168 is
unconditional) — only with an empty record name; the sync is not skipped. -/
theorem syncCLI_no_version_cex :
    getPublishVersion appNoVersion = "" ∧
    appNoVersion.statusWorkflow = none ∧
    Event.syncWorkflowRecord "demo" "" ∈
      (syncAppCreatedByCLI cliEnvNoSync appNoVersion emptyStore emptyCache).trace := by
  refine ⟨rfl, rfl, ?_⟩
  decide

/-- Claim C3 (amended): for a CLI-origin resource with no publish-version
annotation and no workflow revision marker in its status, the
workflow-record synchronization is not skipped: any SyncWorkflowRecord
call of the event carries an empty record name (only a warning is logged),
and whenever the metadata pipeline is not due the call does happen. -/
theorem syncCLI_no_version_empty_record (env : Env) (app : AppCR)
    (st : Store) (cache : Cache)
    (hpv : getPublishVersion app = "")
    (hwf : app.statusWorkflow = none) :
    (∀ k rn, Event.syncWorkflowRecord k rn ∈
        (syncAppCreatedByCLI env app st cache).trace → rn = "") ∧
    (env.shouldSyncMetaFromCLI false = false →
      Event.syncWorkflowRecord (getAppMetaName st app.name app.nspace) "" ∈
        (syncAppCreatedByCLI env app st cache).trace) := by
  have hcrn : computedRecordName app = "" := by
    simp [computedRecordName, hpv, hwf]
  constructor
  · intro k rn h
    have h2 := syncCLI_sync_event_args env app st cache k rn h
    rw [hcrn] at h2
    exact h2
  · intro hb
    rw [syncCLI_no_meta_sync env app st cache hb]
    unfold finishWorkflowRecord
    rw [hcrn]
    simp

/-- Witness for the amended claim C3 at a concrete input. -/
theorem syncCLI_no_version_empty_record_witness :
    Event.syncWorkflowRecord (getAppMetaName emptyStore "demo" "prod") "" ∈
      (syncAppCreatedByCLI cliEnvNoSync appNoVersion emptyStore emptyCache).trace :=
  (syncCLI_no_version_empty_record cliEnvNoSync appNoVersion emptyStore
    emptyCache rfl rfl).2 rfl

/-- Claim C7: for every CLI-origin resource with no publish-version
annotation but with a workflow revision marker in its status, the workflow
record name passed to SyncWorkflowRecord equals the status AppRevision
string with its first colon replaced by a single hyphen. -/
theorem syncCLI_derived_record_name (env : Env) (app : AppCR) (st : Store)
    (cache : Cache) (w : WorkflowStatus)
    (hpv : getPublishVersion app = "")
    (hwf : app.statusWorkflow = some w) :
    ∀ k rn, Event.syncWorkflowRecord k rn ∈
        (syncAppCreatedByCLI env app st cache).trace →
      rn = stringsReplaceFirst w.appRevision ':' '-' := by
  intro k rn h
  have h2 := syncCLI_sync_event_args env app st cache k rn h
  rw [h2]
  simp [computedRecordName, hpv, hwf]

/-- A CLI-origin live resource with no publish-version annotation but a
workflow revision marker in its status. -/
def appDerivedVersion : AppCR :=
  { name := "demo", nspace := "prod", annotations := [],
    statusWorkflow := some { appRevision := "demo:v1" } }

/-- Witness for C7 at a concrete input: the record name passed to
SyncWorkflowRecord is demo-v1, the status marker demo:v1 with the colon
replaced by a hyphen. -/
theorem syncCLI_derived_record_name_witness :
    Event.syncWorkflowRecord "demo" "demo-v1" ∈
      (syncAppCreatedByCLI cliEnvNoSync appDerivedVersion emptyStore
        emptyCache).trace ∧
    "demo-v1" = stringsReplaceFirst "demo:v1" ':' '-' :=
  ⟨by decide,
   syncCLI_derived_record_name cliEnvNoSync appDerivedVersion emptyStore
     emptyCache { appRevision := "demo:v1" } rfl rfl "demo" "demo-v1"
     (by decide)⟩

/-- Claim C6: for every console-origin resource whose application-name
annotation is empty or absent, AddOrUpdate returns a non-nil error for
that event and performs no workflow-record synchronization and no store
writes. -/
theorem addOrUpdate_ux_missing_name (env : Env) (app : AppCR) (st : Store)
    (cache : Cache)
    (hux : env.appFromUX = true)
    (hname : annotGet app AnnotationAppName = "") :
    (AddOrUpdate env app st cache).err =
      some ("appName is empty in application " ++ app.name) ∧
    (AddOrUpdate env app st cache).trace = [] ∧
    (AddOrUpdate env app st cache).store = st ∧
    (AddOrUpdate env app st cache).cache = cache := by
  unfold AddOrUpdate syncAppCreatedByUX
  rw [hux]
  simp [hname]

/-- A console-origin environment. -/
def uxEnv : Env := { cliEnvAllOk with appFromUX := true }

/-- A live resource with no annotations at all. -/
def appNoName : AppCR :=
  { name := "orphan", nspace := "prod", annotations := [],
    statusWorkflow := none }

/-- Witness for C6 at a concrete input. -/
theorem addOrUpdate_ux_missing_name_witness :
    (AddOrUpdate uxEnv appNoName emptyStore emptyCache).err =
      some ("appName is empty in application " ++ "orphan") ∧
    (AddOrUpdate uxEnv appNoName emptyStore emptyCache).trace = [] ∧
    (AddOrUpdate uxEnv appNoName emptyStore emptyCache).store = emptyStore ∧
    (AddOrUpdate uxEnv appNoName emptyStore emptyCache).cache = emptyCache :=
  addOrUpdate_ux_missing_name uxEnv appNoName emptyStore emptyCache rfl rfl

/-- Claim C9: for every resource classified as neither console-origin nor
CLI-origin, AddOrUpdate performs no store writes and no collaborator calls
and returns nil (success, not an error). -/
theorem addOrUpdate_skip_unrecognized (env : Env) (app : AppCR) (st : Store)
    (cache : Cache)
    (h1 : env.appFromUX = false) (h2 : env.appFromCLI = false) :
    AddOrUpdate env app st cache =
      { err := none, store := st, cache := cache, trace := [] } := by
  unfold AddOrUpdate
  rw [h1, h2]
  simp

/-- An environment whose classifiers recognize neither origin. -/
def skipEnv : Env :=
  { cliEnvAllOk with appFromUX := false, appFromCLI := false }

/-- Witness for C9 at a concrete input. -/
theorem addOrUpdate_skip_unrecognized_witness :
    AddOrUpdate skipEnv appWeb emptyStore emptyCache =
      { err := none, store := emptyStore, cache := emptyCache, trace := [] } :=
  addOrUpdate_skip_unrecognized skipEnv appWeb emptyStore emptyCache rfl rfl

/-- Claim C5: for every delete event on a CLI-origin resource whose
composed-key record exists in the store and with no application service
configured, DeleteApp issues a store delete for exactly the composed-key
record and no other key, so a bare-name record owned by a different
namespace is left unchanged. -/
theorem deleteApp_removes_exactly_composed (env : Env) (app : AppCR)
    (st : Store) (r : Application)
    (hcli : env.appFromCLI = true)
    (hex : st (formatAppComposedName app.name app.nspace) = some r)
    (hsvc : env.hasApplicationService = false) :
    (DeleteApp env app st).1 = none ∧
    (DeleteApp env app st).2 (formatAppComposedName app.name app.nspace) = none ∧
    ∀ k, k ≠ formatAppComposedName app.name app.nspace →
      (DeleteApp env app st).2 k = st k := by
  have hga : getApp st app.name app.nspace =
      (some r, formatAppComposedName app.name app.nspace, none) := by
    unfold getApp
    rw [hex]
  have hres : DeleteApp env app st =
      dsDelete st (formatAppComposedName app.name app.nspace) := by
    unfold DeleteApp
    rw [hcli, hga, hsvc]
    simp
  rw [hres]
  unfold dsDelete
  rw [hex]
  refine ⟨rfl, by simp, ?_⟩
  intro k hk
  simp [hk]

/-- A store holding the composed-key record demo-ns-b next to a bare-name
record demo owned by namespace ns-a. -/
def storeDel : Store := fun k =>
  if k = "demo-ns-b" then some recComposed
  else if k = "demo" then some recOwnedByNsA
  else none

/-- A CLI-origin delete event for (demo, ns-b). -/
def appDel : AppCR :=
  { name := "demo", nspace := "ns-b", annotations := [],
    statusWorkflow := none }

/-- Witness for C5 at a concrete input: the composed-key record is removed
and the bare-name record of the other namespace is untouched. -/
theorem deleteApp_removes_exactly_composed_witness :
    (DeleteApp cliEnvAllOk appDel storeDel).1 = none ∧
    (DeleteApp cliEnvAllOk appDel storeDel).2
      (formatAppComposedName "demo" "ns-b") = none ∧
    (DeleteApp cliEnvAllOk appDel storeDel).2 "demo" = storeDel "demo" := by
  have h := deleteApp_removes_exactly_composed cliEnvAllOk appDel storeDel
    recComposed rfl (by decide) rfl
  exact ⟨h.1, h.2.1, h.2.2 "demo" (by decide)⟩
